import Mathlib

/-!
# Verification of the rg3d editor graph bridge and tile-collider parser

A shallow embedding of two parts of the repository:

* `src/editor/src/world/graph/mod.rs` — the `WorldViewerDataProvider`
  bridge over the scene graph (`children_of`, `icon_of`, `on_drop`,
  `on_selection_changed`, …).  The underlying generational pool
  (`Handle`, `Pool`, `Graph::try_get`) is not part of the staged sources,
  so it is modelled from the specification's description of it.

* `src/fyrox-impl/src/scene/tilemap/tile_collider.rs` — the
  `CustomTileCollider` text format (tokenizer, group parser, index
  validation, `Display`) and `build_collider_shape`.

`f32` coordinates are modelled as exact integer thousandths (`ℤ`):
the source's `parse_f32` rounds every parsed coordinate to three decimal
digits, so each stored coordinate is (up to binary-float representation
noise, which the claims do not touch) an integer number of thousandths.
Machine integers (`u32`, `usize`) are modelled as `Nat`; no operation in
the embedded code can overflow them on inputs of realistic size.
-/

deriving instance DecidableEq for Except

namespace RG3D

/-! ## Handles, pool and graph (modelled from the spec) -/

/-- Modelled from the spec: `Handle<T>` is a generational index
`(index: u32, generation: u32)`; `fyrox::core::pool` is not among the
staged sources.  Index `0` is reserved to represent "no handle". -/
structure Handle where
  index : Nat
  generation : Nat
deriving DecidableEq, Repr

/-- Modelled from the spec: the default / null handle. -/
def Handle.NONE : Handle := ⟨0, 0⟩

/-- Modelled from the spec: a handle with index `0` is the "no handle"
value; `is_some` on a handle is the negation. -/
def Handle.isNone (h : Handle) : Bool := h.index == 0

/-- Node classification used by `icon_of`; the `Node::is_*` family lives
outside the staged sources, so a node carries its category directly. -/
inductive NodeKind
  | pointLight | directionalLight | spotLight
  | joint | joint2d
  | rigidBody | rigidBody2d
  | collider | collider2d
  | sound
  | other
deriving DecidableEq, Repr

/-- Modelled from the spec: a pooled scene node with a parent handle, an
ordered children list, a name and a resource flag (`resource().is_some()`). -/
structure Node where
  parent : Handle := Handle.NONE
  children : List Handle := []
  name : String := ""
  hasResource : Bool := false
  kind : NodeKind := .other
deriving DecidableEq, Repr

/-- Modelled from the spec: a pool slot is either free or occupied, each
carrying a generation. -/
inductive Slot
  | free (generation : Nat)
  | occupied (generation : Nat) (node : Node)
deriving DecidableEq, Repr

/-- Modelled from the spec: the graph owns a pool of nodes. -/
structure Graph where
  pool : List Slot
deriving DecidableEq, Repr

/-- Modelled from the spec: `try_get` returns the node iff the slot at the
handle's index is occupied and its stored generation equals the handle's
generation; index `0` is the reserved null index.  Never panics. -/
def Graph.tryGet (g : Graph) (h : Handle) : Option Node :=
  if h.index = 0 then none
  else
    match g.pool[h.index]? with
    | some (.occupied gen n) => if gen = h.generation then some n else none
    | _ => none

/-! ## The editor data-provider bridge (from `src/editor/src/world/graph/mod.rs`) -/

/-- `children_of`: children of a valid node, `Vec::default()` otherwise. -/
def children_of (g : Graph) (node : Handle) : List Handle :=
  ((g.tryGet node).map (fun n => n.children)).getD []

/-- `child_count_of`: `map_or(0, |node| node.children().len())`. -/
def child_count_of (g : Graph) (node : Handle) : Nat :=
  ((g.tryGet node).map (fun n => n.children.length)).getD 0

/-- `is_node_has_child`: `map_or(false, |node| node.children().contains(&child))`. -/
def is_node_has_child (g : Graph) (node child : Handle) : Bool :=
  ((g.tryGet node).map (fun n => n.children.contains child)).getD false

/-- `parent_of`: the node's parent, or the default (null) handle. -/
def parent_of (g : Graph) (node : Handle) : Handle :=
  ((g.tryGet node).map (fun n => n.parent)).getD Handle.NONE

/-- `name_of`: `try_get(node).map(|n| n.name())`. -/
def name_of (g : Graph) (node : Handle) : Option String :=
  (g.tryGet node).map (fun n => n.name)

/-- `is_valid_handle`, delegated to the pool's validity check. -/
def is_valid_handle (g : Graph) (node : Handle) : Bool :=
  (g.tryGet node).isSome

/-- `is_instance`: `map_or(false, |n| n.resource().is_some())`. -/
def is_instance (g : Graph) (node : Handle) : Bool :=
  ((g.tryGet node).map (fun n => n.hasResource)).getD false

/-- The six icon images `icon_of` can load. -/
inductive IconId
  | light | jointIcon | rigidBodyIcon | colliderIcon | soundSource | cube
deriving DecidableEq, Repr

/-- The `if`-chain of `icon_of` classifying a node into one of the six
embedded images. -/
def classifyIcon (n : Node) : IconId :=
  match n.kind with
  | .pointLight | .directionalLight | .spotLight => .light
  | .joint | .joint2d => .jointIcon
  | .rigidBody | .rigidBody2d => .rigidBodyIcon
  | .collider | .collider2d => .colliderIcon
  | .sound => .soundSource
  | .other => .cube

/-- `load_image` decodes an image embedded in the binary; modelled as the
successful load of the chosen icon. -/
def load_image (i : IconId) : Option IconId := some i

/-- `icon_of` from the source: `self.graph.try_get(node.into()).unwrap()`
followed by the classification chain.  The `unwrap()` panics on an
invalid handle; a panic is modelled as `Except.error ()`. -/
def icon_of (g : Graph) (node : Handle) : Except Unit (Option IconId) :=
  match g.tryGet node with
  | none => .error ()
  | some n => .ok (load_image (classifyIcon n))

/-! ## Selection state and commands -/

/-- Modelled from the spec: a graph selection is an ordered set of node
handles (`GraphSelection::nodes`; `selection.rs` is not among the staged
sources). -/
structure GraphSelection where
  nodes : List Handle
deriving DecidableEq, Repr

/-- The editor `Selection` enum: `None`, `Graph(..)`, or one of the other
(non-graph) variants, which `on_drop` / `on_selection_changed` never
construct and treat uniformly. -/
inductive Selection
  | nothing
  | graph (s : GraphSelection)
  | otherVariant
deriving DecidableEq, Repr

/-- The scene commands the bridge can send: a `CommandGroup` of
`LinkNodesCommand(node, parent)` pairs, or a `ChangeSelectionCommand`. -/
inductive SceneCmd
  | linkGroup (relinks : List (Handle × Handle))
  | changeSelection (newSel old : Selection)
deriving DecidableEq, Repr

/-! ## `on_drop` (from `src/editor/src/world/graph/mod.rs`) -/

/-- The cycle-check loop of `on_drop` for one selected node:
`let mut p = parent; while p.is_some() { if p == node_handle { attach =
false; break; } p = self.graph[p].parent(); }`.  Returns `some true`
when the walk reaches `nodeHandle` (the link is rejected), `some false`
when it reaches the null handle, and `none` when the fuel runs out
(the Rust loop would not terminate on such a graph) or `graph[p]`
dereferences an invalid handle (the Rust indexing would panic). -/
def walkContains (g : Graph) : Nat → Handle → Handle → Option Bool
  | 0, _, _ => none
  | fuel + 1, nodeHandle, p =>
    if p.isNone then some false
    else if p = nodeHandle then some true
    else
      match g.tryGet p with
      | none => none
      | some n => walkContains g fuel nodeHandle n.parent

/-- The full ancestor walk from a handle: the list of handles the loop of
`on_drop` visits before reaching the null handle.  `some l` certifies
that the walk terminates and dereferences only valid handles. -/
def ancestorWalk (g : Graph) : Nat → Handle → Option (List Handle)
  | 0, _ => none
  | fuel + 1, p =>
    if p.isNone then some []
    else
      match g.tryGet p with
      | none => none
      | some n => (ancestorWalk g fuel n.parent).map (fun l => p :: l)

/-- The `for &node_handle in selection.nodes.iter()` loop of `on_drop`:
the selected nodes whose cycle check passes, in order. -/
def acceptedRelinks (g : Graph) (fuel : Nat) (target : Handle) :
    List Handle → Option (List Handle)
  | [] => some []
  | a :: rest => do
    let rejected ← walkContains g fuel a target
    let others ← acceptedRelinks g fuel target rest
    pure (if rejected then others else a :: others)

/-- `on_drop(child, parent)` from the source: if the current selection is
a graph selection containing the dragged child, cycle-check every
selected node, collect a `LinkNodesCommand` per accepted node, and send
them as one `CommandGroup` iff the list is non-empty.  The result is the
list of commands sent (`none` models a panic / non-termination of the
ancestor walk). -/
def on_drop (g : Graph) (sel : Selection) (fuel : Nat) (child target : Handle) :
    Option (List SceneCmd) :=
  match sel with
  | .graph s =>
    if child ∈ s.nodes then
      (acceptedRelinks g fuel target s.nodes).map (fun acc =>
        let commands := acc.map (fun a => (a, target))
        if commands.isEmpty then [] else [SceneCmd.linkGroup commands])
    else some []
  | _ => some []

/-- The `LinkNodesCommand` pairs contained in a sent command list. -/
def relinksIn (cmds : List SceneCmd) : List (Handle × Handle) :=
  cmds.foldr (fun c acc =>
    match c with
    | .linkGroup l => l ++ acc
    | _ => acc) []

/-! ## `on_selection_changed` (from `src/editor/src/world/graph/mod.rs`) -/

/-- Modelled from the spec: `GraphSelection::single_or_empty` makes a
one-element selection, empty for the null handle. -/
def single_or_empty (h : Handle) : GraphSelection :=
  ⟨if h.isNone then [] else [h]⟩

/-- Modelled from the spec: `insert_or_exclude` toggles membership —
"inserting an already-selected handle removes it". -/
def insert_or_exclude (s : GraphSelection) (h : Handle) : GraphSelection :=
  ⟨if h ∈ s.nodes then s.nodes.erase h else s.nodes ++ [h]⟩

/-- The fold of `on_selection_changed` building the new selection from
the flat input list: the first item seeds `Graph(single_or_empty ..)`,
later items are toggled in with `insert_or_exclude`. -/
def computeSelection (items : List Handle) : Selection :=
  items.foldl (fun acc item =>
    match acc with
    | .nothing => .graph (single_or_empty item)
    | .graph s => .graph (insert_or_exclude s item)
    | o => o) .nothing

/-- `on_selection_changed` from the source: compute the new selection; if
it differs from the current one, send a `ChangeSelectionCommand` (whose
application makes it current), else send nothing.  Returns the optional
command sent and the selection current after command processing. -/
def on_selection_changed (current : Selection) (items : List Handle) :
    Option SceneCmd × Selection :=
  let newSel := computeSelection items
  if newSel ≠ current then (some (.changeSelection newSel current), newSel)
  else (none, current)

/-! ## Spec-side reachability: descendants via the parent chain -/

/-- One step up the parent chain: `y` is the stored parent of the valid
node `x`. -/
def parentStep (g : Graph) (x y : Handle) : Prop :=
  ∃ n, g.tryGet x = some n ∧ n.parent = y

/-- `d` is a descendant of `a`: following stored parents from `d` reaches
`a` in one or more steps.  (Equivalently, `a` is a strict ancestor of
`d`, i.e. `d` lies in `a`'s subtree.) -/
def isDescendant (g : Graph) (d a : Handle) : Prop :=
  Relation.TransGen (parentStep g) d a

/-! ## Tile-collider text format
(from `src/fyrox-impl/src/scene/tilemap/tile_collider.rs`) -/

/-- `is_number_char`: numeric, `.` or `-` (ASCII reading of
`char::is_numeric`). -/
def is_number_char (c : Char) : Bool := c.isDigit || c = '.' || c = '-'

/-- A token of `TokenIter`: a single comma, or a maximal run of number
characters. -/
inductive Token
  | comma
  | num (chars : List Char)
deriving DecidableEq, Repr

/-- `TokenIter` as a function on the character list: commas become
`Token.comma`, maximal runs of number characters become `Token.num`, all
other characters are skipped.  The fuel argument (one unit per consumed
character) makes the recursion structural; `cs.length` always suffices
because every step consumes at least one character. -/
def tokenizeAux : Nat → List Char → List Token
  | 0, _ => []
  | _, [] => []
  | fuel + 1, c :: rest =>
    if c = ',' then .comma :: tokenizeAux fuel rest
    else if is_number_char c then
      .num (c :: rest.takeWhile is_number_char) ::
        tokenizeAux fuel (rest.dropWhile is_number_char)
    else tokenizeAux fuel rest

/-- All tokens of a character list. -/
def tokenize (cs : List Char) : List Token := tokenizeAux cs.length cs

/-- `CustomTileColliderStrError`; the wrapped `ParseIntError` /
`ParseFloatError` payloads are not inspected by any claim and are
dropped. -/
inductive StrError
  | groupTooShort
  | groupTooLong (n : Nat)
  | missingNumber
  | indexOutOfBounds (n : Nat)
  | indexParseError
  | coordinateParseError
deriving DecidableEq, Repr

/-- The natural number a digit run denotes. -/
def digitsToNat (ds : List Char) : Nat :=
  ds.foldl (fun acc c => acc * 10 + (c.toNat - '0'.toNat)) 0

/-- The value `ip.fp` (integer digits `ip`, fraction digits `fp`) in
thousandths, rounded half-up to three decimal places — the composition
of `f32::from_str` with the 3-decimal rounding of `parse_f32`, on exact
decimals. -/
def milliOfDigits (ip fp : List Char) : Nat :=
  ((digitsToNat ip * 10 ^ fp.length + digitsToNat fp) * 2000 + 10 ^ fp.length) /
    (2 * 10 ^ fp.length)

/-- The unsigned part of the `f32` grammar restricted to the characters a
token can contain: `digits`, `digits.digits`, `.digits` or `digits.`,
with at least one digit. -/
def parseUnsignedMilli (cs : List Char) : Option Nat :=
  let ip := cs.takeWhile Char.isDigit
  match cs.dropWhile Char.isDigit with
  | [] => if ip.isEmpty then none else some (milliOfDigits ip [])
  | '.' :: fp =>
    if fp.all Char.isDigit && !(ip.isEmpty && fp.isEmpty) then
      some (milliOfDigits ip fp)
    else none
  | _ => none

/-- `parse_f32` from the source — `f32::from_str` followed by rounding to
three decimals — returning the coordinate in exact thousandths. -/
def parse_f32 (cs : List Char) : Option ℤ :=
  match cs with
  | '-' :: rest => (parseUnsignedMilli rest).map (fun n => -(n : ℤ))
  | _ => (parseUnsignedMilli cs).map (fun n => (n : ℤ))

/-- `u32::from_str` on a token: all characters must be digits and the
value must fit in 32 bits. -/
def parse_u32 (cs : List Char) : Option Nat :=
  if cs.isEmpty || !cs.all Char.isDigit then none
  else
    let n := digitsToNat cs
    if n < 2 ^ 32 then some n else none

/-- A vertex in exact thousandths. -/
abbrev Vertex := ℤ × ℤ

/-- A `TriangleDefinition`: three vertex indices. -/
abbrev Triangle := Nat × Nat × Nat

/-- `process_group` from the source: a group of two numbers is a vertex,
of three a triangle; shorter / longer groups are errors. -/
def process_group (group : List (List Char)) (vertices : List Vertex)
    (triangles : List Triangle) :
    Except StrError (List Vertex × List Triangle) :=
  match group with
  | [a, b] =>
    match parse_f32 a, parse_f32 b with
    | some x, some y => .ok (vertices ++ [(x, y)], triangles)
    | _, _ => .error .coordinateParseError
  | [a, b, c] =>
    match parse_u32 a, parse_u32 b, parse_u32 c with
    | some x, some y, some z => .ok (vertices, triangles ++ [(x, y, z)])
    | _, _, _ => .error .indexParseError
  | g =>
    if g.length < 2 then .error .groupTooShort
    else .error (.groupTooLong g.length)

/-- The mutable state of the `for token in TokenIter::new(s)` loop of
`from_str`: the group accumulated so far, the `ready` flag, and the
vertices / triangles produced. -/
structure LoopState where
  group : List (List Char)
  ready : Bool
  vertices : List Vertex
  triangles : List Triangle
deriving DecidableEq, Repr

/-- The token loop of `from_str`: a comma in the `ready` state is
`MissingNumber`; a number in the `ready` state joins the current group;
a number otherwise closes the current group through `process_group` and
starts a new one; a comma otherwise sets `ready`. -/
def runLoop : List Token → LoopState → Except StrError LoopState
  | [], st => .ok st
  | t :: ts, st =>
    if st.ready then
      match t with
      | .comma => .error .missingNumber
      | .num n => runLoop ts { st with group := st.group ++ [n], ready := false }
    else
      match t with
      | .comma => runLoop ts { st with ready := true }
      | .num n =>
        match process_group st.group st.vertices st.triangles with
        | .error e => .error e
        | .ok (vs, trs) =>
          runLoop ts { group := [n], ready := false, vertices := vs, triangles := trs }

/-- The loop state before the first token. -/
def initState : LoopState := ⟨[], true, [], []⟩

/-- After the loop: `if !group.is_empty() { process_group(..)? }`. -/
def finishGroups (st : LoopState) : Except StrError (List Vertex × List Triangle) :=
  if st.group.isEmpty then .ok (st.vertices, st.triangles)
  else process_group st.group st.vertices st.triangles

/-- The first triangle index `≥ len`, in the iteration order of the final
validation loop of `from_str`. -/
def firstBadIndex (triangles : List Triangle) (len : Nat) : Option Nat :=
  match triangles with
  | [] => none
  | (a, b, c) :: rest =>
    if len ≤ a then some a
    else if len ≤ b then some b
    else if len ≤ c then some c
    else firstBadIndex rest len

/-- `CustomTileCollider`: vertices (in exact thousandths) and triangle
index triples. -/
structure CustomTileCollider where
  vertices : List Vertex
  triangles : List Triangle
deriving DecidableEq, Repr

/-- Token consumption and group processing of `from_str`, before index
validation: everything up to `let len = vertices.len() as u32`. -/
def parsePhase (ts : List Token) : Except StrError (List Vertex × List Triangle) :=
  match runLoop ts initState with
  | .error e => .error e
  | .ok st => finishGroups st

/-- `CustomTileCollider::from_str`. -/
def from_str (s : String) : Except StrError CustomTileCollider :=
  match parsePhase (tokenize s.data) with
  | .error e => .error e
  | .ok (vs, trs) =>
    match firstBadIndex trs vs.length with
    | some n => .error (.indexOutOfBounds n)
    | none => .ok ⟨vs, trs⟩

/-- The vertex whose coordinates are the given whole numbers (stored in
thousandths). -/
def vertexOfUnits (x y : ℤ) : Vertex := (1000 * x, 1000 * y)

/-! ## `Display for CustomTileCollider` -/

/-- The decimal digit character for `d < 10`. -/
def digitChar (d : Nat) : Char :=
  match d with
  | 0 => '0' | 1 => '1' | 2 => '2' | 3 => '3' | 4 => '4'
  | 5 => '5' | 6 => '6' | 7 => '7' | 8 => '8' | _ => '9'

/-- The decimal digits of `n`, least significant first (empty for 0);
fuelled to keep the recursion structural, `n` itself is enough fuel. -/
def natDigitsRev : Nat → Nat → List Char
  | 0, _ => []
  | _, 0 => []
  | fuel + 1, n => digitChar (n % 10) :: natDigitsRev fuel (n / 10)

/-- `n` in decimal. -/
def natToString (n : Nat) : String :=
  if n = 0 then "0" else String.mk (natDigitsRev n n).reverse

/-- The fractional digits of `fr` thousandths (`0 < fr < 1000`), with
trailing zeros stripped — how Rust's shortest `f32` `Display` renders a
value that is an exact multiple of `1/1000`. -/
def fracChars (fr : Nat) : List Char :=
  let d1 := digitChar (fr / 100)
  let d2 := digitChar (fr / 10 % 10)
  let d3 := digitChar (fr % 10)
  if fr % 10 ≠ 0 then [d1, d2, d3]
  else if fr % 100 ≠ 0 then [d1, d2]
  else [d1]

/-- Rust's `{}` rendering of an `f32` coordinate held in exact
thousandths: integer part, then a fractional part only when non-zero. -/
def milliToString (m : ℤ) : String :=
  let sign := if m < 0 then "-" else ""
  let n := m.natAbs
  let ip := n / 1000
  let fr := n % 1000
  if fr = 0 then sign ++ natToString ip
  else sign ++ natToString ip ++ "." ++ String.mk (fracChars fr)

/-- `write!(f, "({}, {})", v.x, v.y)`. -/
def displayVertex (v : Vertex) : String :=
  "(" ++ milliToString v.1 ++ ", " ++ milliToString v.2 ++ ")"

/-- `write!(f, "[{}, {}, {}]", t[0], t[1], t[2])`. -/
def displayTriangle (t : Triangle) : String :=
  "[" ++ natToString t.1 ++ ", " ++ natToString t.2.1 ++ ", " ++ natToString t.2.2 ++ "]"

/-- `Display for CustomTileCollider`: all vertices then all triangles,
space-separated (the source's `first` flag writes a space before every
part except the first). -/
def CustomTileCollider.display (c : CustomTileCollider) : String :=
  String.intercalate " "
    (c.vertices.map displayVertex ++ c.triangles.map displayTriangle)

/-! ## `build_collider_shape` -/

/-- A 2D point of the produced collider mesh. -/
abbrev Pt2 := ℤ × ℤ

/-- A 3D point. -/
abbrev Pt3 := ℤ × ℤ × ℤ

/-- `transform.transform_point(&Point3::from(position + p.to_homogeneous())).xy()`:
the `Matrix4<f32>` action on points is abstracted as an opaque map `tf`
(the claims about `build_collider_shape` concern only the list structure
and the triangle indices, never the transformed coordinates). -/
def transformPoint (tf : Pt3 → Pt3) (position : Pt3) (p : Pt2) : Pt2 :=
  let q := tf (position.1 + p.1, position.2.1 + p.2, position.2.2)
  (q.1, q.2.1)

/-- `CustomTileCollider::build_collider_shape`: extend `triangles` with
this collider's triangles shifted by the prior vertex count, then extend
`vertices` with the transformed vertices. -/
def CustomTileCollider.build_collider_shape (c : CustomTileCollider)
    (tf : Pt3 → Pt3) (position : Pt3) (vertices : List Pt2)
    (triangles : List Triangle) : List Pt2 × List Triangle :=
  let origin := vertices.length
  let triangles := triangles ++
    c.triangles.map (fun t => (t.1 + origin, t.2.1 + origin, t.2.2 + origin))
  let vertices := vertices ++
    c.vertices.map (fun p => transformPoint tf position p)
  (vertices, triangles)

/-- `TileCollider`: the broad collider categories.  `Custom` directly
carries the collider data (`Resource::data_ref()` dereferencing is
transparent here). -/
inductive TileCollider
  | nothing
  | rectangle
  | custom (c : CustomTileCollider)
  | mesh

/-- `TileCollider::build_collider_shape`: `None` and `Mesh` add nothing;
`Rectangle` pushes the four transformed tile corners and two triangles
over them; `Custom` delegates to the resource's collider. -/
def TileCollider.build_collider_shape :
    TileCollider → (Pt3 → Pt3) → Pt3 → List Pt2 → List Triangle →
      List Pt2 × List Triangle
  | .nothing, _, _, vs, ts => (vs, ts)
  | .rectangle, tf, pos, vs, ts =>
    let origin := vs.length
    let vs := vs ++
      ([((0 : ℤ), (0 : ℤ)), (1, 0), (1, 1), (0, 1)].map
        (fun d => transformPoint tf pos d))
    let ts := ts ++ [(origin, origin + 1, origin + 2), (origin, origin + 2, origin + 3)]
    (vs, ts)
  | .custom c, tf, pos, vs, ts => c.build_collider_shape tf pos vs ts
  | .mesh, _, _, vs, ts => (vs, ts)

/-! ## Helper lemmas about the ancestor walk -/

theorem tryGet_of_isNone {g : Graph} {h : Handle} (hb : h.isNone = true) :
    g.tryGet h = none := by
  have : h.index = 0 := by simpa [Handle.isNone] using hb
  simp [Graph.tryGet, this]

theorem parentStep_not_isNone {g : Graph} {x y : Handle} (hs : parentStep g x y) :
    x.isNone = false := by
  rcases hs with ⟨n, htry, -⟩
  by_contra hx
  rw [tryGet_of_isNone (by simpa using hx)] at htry
  exact Option.noConfusion htry

/-- The handles the ancestor walk visits are exactly those reachable from
the start by zero or more parent steps, the null terminator excluded. -/
theorem mem_ancestorWalk (g : Graph) :
    ∀ (fuel : Nat) (b : Handle) (l : List Handle),
      ancestorWalk g fuel b = some l →
      ∀ a : Handle,
        (a ∈ l ↔ Relation.ReflTransGen (parentStep g) b a ∧ a.isNone = false) := by
  intro fuel
  induction fuel with
  | zero => intro b l h; simp [ancestorWalk] at h
  | succ fuel ih =>
    intro b l h a
    by_cases hb : b.isNone = true
    · simp only [ancestorWalk, hb, if_true, Option.some.injEq] at h
      subst h
      simp only [List.not_mem_nil, false_iff, not_and]
      intro hr hnn
      rcases hr.cases_head with rfl | ⟨c, hs, -⟩
      · rw [hb] at hnn; exact Bool.noConfusion hnn
      · rw [parentStep_not_isNone hs] at hb; exact Bool.noConfusion hb
    · rw [Bool.not_eq_true] at hb
      cases htry : g.tryGet b with
      | none => simp [ancestorWalk, hb, htry] at h
      | some n =>
        simp only [ancestorWalk, hb, htry, Bool.false_eq_true, if_false] at h
        cases hw : ancestorWalk g fuel n.parent with
        | none => rw [hw] at h; exact Option.noConfusion h
        | some l' =>
          rw [hw] at h
          simp only [Option.map_some', Option.some.injEq] at h
          subst h
          have ihl := ih n.parent l' hw
          constructor
          · intro hmem
            rcases List.mem_cons.mp hmem with rfl | hmem'
            · exact ⟨Relation.ReflTransGen.refl, hb⟩
            · rcases (ihl a).mp hmem' with ⟨hr, hnn⟩
              exact ⟨hr.head ⟨n, htry, rfl⟩, hnn⟩
          · rintro ⟨hr, hnn⟩
            rcases hr.cases_head with rfl | ⟨c, hs, hr'⟩
            · exact List.mem_cons_self _ _
            · rcases hs with ⟨m, htry', hpar⟩
              rw [htry] at htry'
              cases htry'
              subst hpar
              exact List.mem_cons_of_mem _ ((ihl a).mpr ⟨hr', hnn⟩)

/-- When the full ancestor walk from `p` terminates, the per-node loop of
`on_drop` terminates too and decides membership in the visited list. -/
theorem walkContains_eq (g : Graph) :
    ∀ (fuel : Nat) (b : Handle) (l : List Handle),
      ancestorWalk g fuel b = some l →
      ∀ a : Handle, walkContains g fuel a b = some (decide (a ∈ l)) := by
  intro fuel
  induction fuel with
  | zero => intro b l h; simp [ancestorWalk] at h
  | succ fuel ih =>
    intro b l h a
    by_cases hb : b.isNone = true
    · simp only [ancestorWalk, hb, if_true, Option.some.injEq] at h
      subst h
      simp [walkContains, hb]
    · rw [Bool.not_eq_true] at hb
      cases htry : g.tryGet b with
      | none => simp [ancestorWalk, hb, htry] at h
      | some n =>
        simp only [ancestorWalk, hb, htry, Bool.false_eq_true, if_false] at h
        cases hw : ancestorWalk g fuel n.parent with
        | none => rw [hw] at h; exact Option.noConfusion h
        | some l' =>
          rw [hw] at h
          simp only [Option.map_some', Option.some.injEq] at h
          subst h
          by_cases hab : b = a
          · subst hab
            simp [walkContains, hb]
          · have ihw := ih n.parent l' hw a
            have hne : ¬a = b := fun hc => hab hc.symm
            simp only [walkContains, hb, Bool.false_eq_true, if_false,
              if_neg hab, htry]
            rw [ihw]
            congr 1
            exact decide_eq_decide.mpr (by simp [List.mem_cons, hne])

/-- With a terminating full walk, the per-node loop accepts exactly the
selected nodes outside the visited list, in selection order. -/
theorem acceptedRelinks_eq (g : Graph) {fuel : Nat} {target : Handle}
    {l : List Handle} (hwalk : ancestorWalk g fuel target = some l) :
    ∀ nodes : List Handle,
      acceptedRelinks g fuel target nodes =
        some (nodes.filter (fun a => !(decide (a ∈ l)))) := by
  intro nodes
  induction nodes with
  | nil => simp [acceptedRelinks]
  | cons a rest ih =>
    simp only [acceptedRelinks, walkContains_eq g fuel target l hwalk a, ih,
      Option.bind_eq_bind, Option.some_bind, List.filter_cons]
    by_cases hmem : a ∈ l
    · simp [hmem]
    · simp [hmem]

theorem relinksIn_nil : relinksIn [] = [] := rfl

theorem relinksIn_linkGroup (lks : List (Handle × Handle)) :
    relinksIn [SceneCmd.linkGroup lks] = lks := by
  simp [relinksIn]

/-- What `on_drop` sends when the dragged child is selected and the
ancestor walk terminates. -/
theorem on_drop_eq (g : Graph) {fuel : Nat} {target : Handle} {l : List Handle}
    (hwalk : ancestorWalk g fuel target = some l) (s : GraphSelection)
    (child : Handle) (hchild : child ∈ s.nodes) :
    on_drop g (.graph s) fuel child target =
      some (if (s.nodes.filter (fun a => !(decide (a ∈ l)))).isEmpty then []
            else [SceneCmd.linkGroup
              ((s.nodes.filter (fun a => !(decide (a ∈ l)))).map
                (fun a => (a, target)))]) := by
  simp only [on_drop, hchild, if_pos, acceptedRelinks_eq g hwalk, Option.map_some',
    Option.some.injEq]
  by_cases he : (s.nodes.filter (fun a => !(decide (a ∈ l)))) = []
  · simp [he]
  · simp [he, List.isEmpty_iff, List.map_eq_nil_iff]

/-- The relink commands `on_drop` sends, flattened. -/
theorem on_drop_relinks (g : Graph) {fuel : Nat} {target : Handle}
    {l : List Handle} (hwalk : ancestorWalk g fuel target = some l)
    (s : GraphSelection) (child : Handle) (hchild : child ∈ s.nodes)
    {cmds : List SceneCmd}
    (hsent : on_drop g (.graph s) fuel child target = some cmds) :
    relinksIn cmds =
      (s.nodes.filter (fun a => !(decide (a ∈ l)))).map (fun a => (a, target)) := by
  rw [on_drop_eq g hwalk s child hchild] at hsent
  cases hsent
  by_cases he : (s.nodes.filter (fun a => !(decide (a ∈ l)))) = []
  · simp [he, relinksIn_nil]
  · rw [if_neg (by simpa [List.isEmpty_iff] using he)]
    exact relinksIn_linkGroup _

/-- A selected non-null node appears among the sent relinks iff the
target neither equals it nor descends from it. -/
theorem mem_relinks_iff (g : Graph) {fuel : Nat} {target : Handle}
    {l : List Handle} (hwalk : ancestorWalk g fuel target = some l)
    (s : GraphSelection) (child : Handle) (hchild : child ∈ s.nodes)
    {cmds : List SceneCmd}
    (hsent : on_drop g (.graph s) fuel child target = some cmds)
    (a : Handle) (ha : a ∈ s.nodes) (hna : a.isNone = false) :
    ((a, target) ∈ relinksIn cmds ↔ ¬(target = a ∨ isDescendant g target a)) := by
  rw [on_drop_relinks g hwalk s child hchild hsent]
  have hmem : (a, target) ∈
      (s.nodes.filter (fun x => !(decide (x ∈ l)))).map (fun x => (x, target)) ↔
      a ∈ s.nodes.filter (fun x => !(decide (x ∈ l))) := by
    constructor
    · intro hx
      rcases List.mem_map.mp hx with ⟨x, hxf, hxe⟩
      cases hxe
      exact hxf
    · intro hx
      exact List.mem_map.mpr ⟨a, hx, rfl⟩
  rw [hmem, List.mem_filter]
  have hwalkmem := mem_ancestorWalk g fuel target l hwalk a
  constructor
  · rintro ⟨-, hnotin⟩ hbad
    have : a ∈ l := by
      apply hwalkmem.mpr
      refine ⟨?_, hna⟩
      rcases hbad with heq | hdesc
      · exact heq ▸ Relation.ReflTransGen.refl
      · exact Relation.reflTransGen_iff_eq_or_transGen.mpr (Or.inr hdesc)
    simp [this] at hnotin
  · intro hbad
    refine ⟨ha, ?_⟩
    simp only [Bool.not_eq_eq_eq_not, Bool.not_true, decide_eq_false_iff_not]
    intro hin
    rcases Relation.reflTransGen_iff_eq_or_transGen.mp (hwalkmem.mp hin).1 with
      heq | hdesc
    · exact hbad (Or.inl heq.symm)
    · exact hbad (Or.inr hdesc)

/-! ## Concrete graphs for witnesses and counterexamples -/

/-- Handle of the root of the three-node chain graph. -/
def hRoot : Handle := ⟨1, 1⟩

/-- Handle of the middle node of the chain graph. -/
def hMid : Handle := ⟨2, 1⟩

/-- Handle of the leaf of the chain graph. -/
def hLeaf : Handle := ⟨3, 1⟩

/-- Root node of the chain graph. -/
def nRoot : Node := { parent := Handle.NONE, children := [hMid] }

/-- Middle node of the chain graph. -/
def nMid : Node := { parent := hRoot, children := [hLeaf] }

/-- Leaf node of the chain graph. -/
def nLeaf : Node := { parent := hMid }

/-- A chain `root ← mid ← leaf` (slot 0 is the reserved null slot). -/
def chainGraph : Graph :=
  ⟨[.free 0, .occupied 1 nRoot, .occupied 1 nMid, .occupied 1 nLeaf]⟩

/-- A handle to a slot that was never occupied: invalid. -/
def staleHandle : Handle := ⟨1, 1⟩

/-- A graph with only the reserved null slot. -/
def emptyGraph : Graph := ⟨[Slot.free 0]⟩

/-! ## Claims C1, C2, C4, C9 — `on_drop` -/

/-- **C1**: for every graph, drop target `target`, and selected node `a`
processed by `on_drop` (the dragged `child` is selected, the ancestor
walk from the target terminates, `a` is a node handle), the relink of
`a` onto `target` is rejected — no `LinkNodesCommand` for `a` appears in
the sent commands — if and only if `target` equals `a` or `target` is a
descendant of `a` at call time; otherwise the relink command `(a,
target)` is issued. -/
theorem C1_relink_rejected_iff_cycle (g : Graph) (fuel : Nat)
    (s : GraphSelection) (child target a : Handle) (l : List Handle)
    (cmds : List SceneCmd)
    (hwalk : ancestorWalk g fuel target = some l)
    (hchild : child ∈ s.nodes)
    (hsent : on_drop g (.graph s) fuel child target = some cmds)
    (ha : a ∈ s.nodes) (hna : a.isNone = false) :
    ((a, target) ∉ relinksIn cmds ↔ (target = a ∨ isDescendant g target a)) := by
  rw [not_iff_comm, Iff.comm]
  exact mem_relinks_iff g hwalk s child hchild hsent a ha hna

/-- Witness for C1 at the chain graph: dropping the selected leaf onto
the middle node issues the relink, so the target neither equals the leaf
nor descends from it. -/
theorem C1_witness :
    ¬(hMid = hLeaf ∨ isDescendant chainGraph hMid hLeaf) := by
  intro hbad
  have h := C1_relink_rejected_iff_cycle chainGraph 10 ⟨[hLeaf]⟩ hLeaf hMid hLeaf
    [hMid, hRoot] [SceneCmd.linkGroup [(hLeaf, hMid)]]
    (by decide) (by decide) (by decide) (by decide) (by decide)
  exact h.mpr hbad (by decide)

/-- Counterexample to **C2** as stated: in the chain graph the leaf's own
ancestor chain contains the drop target (the leaf is a descendant of the
middle node) and the leaf is not the target, yet `on_drop` does not skip
it — a relink command for the leaf is issued. -/
theorem C2_counterexample :
    isDescendant chainGraph hLeaf hMid ∧ hLeaf ≠ hMid ∧
    on_drop chainGraph (.graph ⟨[hLeaf]⟩) 10 hLeaf hMid =
      some [SceneCmd.linkGroup [(hLeaf, hMid)]] :=
  ⟨Relation.TransGen.single ⟨nLeaf, by decide, by decide⟩, by decide, by decide⟩

/-- **C2 amended**: in `on_drop`, a selected node is silently skipped (no
relink command issued for it, not an error) exactly when the node is the
drop target itself or the *drop target's* ancestor chain contains the
node (the target is a descendant of the node) — not when the node's own
chain contains the target. -/
theorem C2_skip_iff_target_chain_contains (g : Graph) (fuel : Nat)
    (s : GraphSelection) (child target a : Handle) (l : List Handle)
    (cmds : List SceneCmd)
    (hwalk : ancestorWalk g fuel target = some l)
    (hchild : child ∈ s.nodes)
    (hsent : on_drop g (.graph s) fuel child target = some cmds)
    (ha : a ∈ s.nodes) (hna : a.isNone = false) :
    ((a, target) ∉ relinksIn cmds ↔ (a = target ∨ isDescendant g target a)) := by
  rw [not_iff_comm, Iff.comm, eq_comm]
  exact mem_relinks_iff g hwalk s child hchild hsent a ha hna

/-- Witness for the amended C2: dropping the selected middle node onto
the leaf is skipped, and indeed the leaf descends from the middle node. -/
theorem C2_witness :
    hMid = hLeaf ∨ isDescendant chainGraph hLeaf hMid := by
  have h := C2_skip_iff_target_chain_contains chainGraph 10 ⟨[hMid]⟩ hMid hLeaf hMid
    [hLeaf, hMid, hRoot] []
    (by decide) (by decide) (by decide) (by decide) (by decide)
  exact h.mp (by decide)

/-- **C4**: when the dragged child is selected, the accepted relinks are
sent as exactly one command group — one undo/redo step — and when the
cycle filter leaves nothing, no command at all is sent. -/
theorem C4_one_group_or_nothing (g : Graph) (fuel : Nat)
    (s : GraphSelection) (child target : Handle) (l : List Handle)
    (hwalk : ancestorWalk g fuel target = some l)
    (hchild : child ∈ s.nodes) :
    ((s.nodes.filter (fun a => !(decide (a ∈ l)))) = [] →
      on_drop g (.graph s) fuel child target = some []) ∧
    ((s.nodes.filter (fun a => !(decide (a ∈ l)))) ≠ [] →
      on_drop g (.graph s) fuel child target =
        some [SceneCmd.linkGroup
          ((s.nodes.filter (fun a => !(decide (a ∈ l)))).map
            (fun a => (a, target)))]) := by
  constructor
  · intro he
    rw [on_drop_eq g hwalk s child hchild, he]
    rfl
  · intro he
    rw [on_drop_eq g hwalk s child hchild,
      if_neg (by simpa [List.isEmpty_iff] using he)]

/-- Witness for C4 at the chain graph: an accepted drop sends one
command group; a fully filtered drop sends nothing. -/
theorem C4_witness :
    on_drop chainGraph (.graph ⟨[hLeaf]⟩) 10 hLeaf hMid =
        some [SceneCmd.linkGroup [(hLeaf, hMid)]] ∧
    on_drop chainGraph (.graph ⟨[hMid]⟩) 10 hMid hLeaf = some [] := by
  constructor
  · exact (C4_one_group_or_nothing chainGraph 10 ⟨[hLeaf]⟩ hLeaf hMid [hMid, hRoot]
      (by decide) (by decide)).2 (by decide)
  · exact (C4_one_group_or_nothing chainGraph 10 ⟨[hMid]⟩ hMid hLeaf
      [hLeaf, hMid, hRoot] (by decide) (by decide)).1 (by decide)

/-- **C9**: if the dragged child is not a member of the current graph
selection, or the current selection is not a graph selection, `on_drop`
does nothing at all — no command is sent and nothing is touched. -/
theorem C9_no_selection_noop (g : Graph) (sel : Selection) (fuel : Nat)
    (child target : Handle)
    (h : ∀ s, sel = Selection.graph s → child ∉ s.nodes) :
    on_drop g sel fuel child target = some [] := by
  cases sel with
  | nothing => rfl
  | otherVariant => rfl
  | graph s => simp [on_drop, h s rfl]

/-- Witness for C9: a non-graph selection, and a graph selection not
containing the dragged child, both make `on_drop` a no-op. -/
theorem C9_witness :
    on_drop chainGraph .otherVariant 10 hLeaf hMid = some [] ∧
    on_drop chainGraph (.graph ⟨[hMid]⟩) 10 hLeaf hMid = some [] := by
  constructor
  · exact C9_no_selection_noop chainGraph .otherVariant 10 hLeaf hMid
      (fun s hs => by cases hs)
  · exact C9_no_selection_noop chainGraph (.graph ⟨[hMid]⟩) 10 hLeaf hMid
      (fun s hs => by cases hs; decide)

/-! ## Claim C3 — invalid handles in the data-provider bridge -/

/-- Counterexample to **C3** as stated: `icon_of` is among the listed
bridge operations, yet on an invalid handle it does not return a
default/`None` result — its `try_get(..).unwrap()` panics (modelled as
`Except.error ()`). -/
theorem C3_counterexample :
    is_valid_handle emptyGraph staleHandle = false ∧
    icon_of emptyGraph staleHandle = .error () := by decide

/-- **C3 amended**: for every invalid handle, `children_of`,
`child_count_of`, `is_node_has_child`, `parent_of`, `name_of` and
`is_instance` return a default/`None` result gracefully and never
panic; `icon_of` alone panics on an invalid handle instead. -/
theorem C3_invalid_handle_defaults (g : Graph) (h c : Handle)
    (hinv : is_valid_handle g h = false) :
    children_of g h = [] ∧ child_count_of g h = 0 ∧
    is_node_has_child g h c = false ∧ parent_of g h = Handle.NONE ∧
    name_of g h = none ∧ is_instance g h = false ∧
    icon_of g h = .error () := by
  have hnone : g.tryGet h = none := by
    cases ht : g.tryGet h with
    | none => rfl
    | some n => rw [is_valid_handle, ht] at hinv; exact Bool.noConfusion hinv
  refine ⟨?_, ?_, ?_, ?_, ?_, ?_, ?_⟩ <;>
    simp [children_of, child_count_of, is_node_has_child, parent_of, name_of,
      is_instance, icon_of, hnone]

/-- Witness for the amended C3 at a concrete invalid handle. -/
theorem C3_witness :
    children_of emptyGraph staleHandle = [] ∧
    child_count_of emptyGraph staleHandle = 0 ∧
    is_node_has_child emptyGraph staleHandle hMid = false ∧
    parent_of emptyGraph staleHandle = Handle.NONE ∧
    name_of emptyGraph staleHandle = none ∧
    is_instance emptyGraph staleHandle = false ∧
    icon_of emptyGraph staleHandle = .error () :=
  C3_invalid_handle_defaults emptyGraph staleHandle hMid (by decide)

/-! ## Claim C5 — idempotence of `on_selection_changed` -/

/-- **C5**: `on_selection_changed` is idempotent: whenever folding the
input sequence by repeated insert-or-exclude yields a selection equal to
the current one, no selection-change command is emitted; in particular,
applying `on_selection_changed` twice with the same input issues no
command the second time. -/
theorem C5_selection_idempotent (current : Selection) (items : List Handle) :
    (computeSelection items = current →
      (on_selection_changed current items).1 = none) ∧
    (on_selection_changed (on_selection_changed current items).2 items).1 =
      none := by
  constructor
  · intro h
    simp [on_selection_changed, h]
  · by_cases h : computeSelection items = current
    · simp [on_selection_changed, h]
    · simp [on_selection_changed, h]

/-! ## Helper lemmas about the token loop -/

/-- One iteration of the token loop, as a function of the current token
and state (proved below to agree with `runLoop`). -/
def loopStep (t : Token) (st : LoopState) : Except StrError LoopState :=
  if st.ready then
    match t with
    | .comma => .error .missingNumber
    | .num n => .ok { st with group := st.group ++ [n], ready := false }
  else
    match t with
    | .comma => .ok { st with ready := true }
    | .num n =>
      match process_group st.group st.vertices st.triangles with
      | .error e => .error e
      | .ok (vs, trs) =>
        .ok { group := [n], ready := false, vertices := vs, triangles := trs }

theorem runLoop_cons (t : Token) (ts : List Token) (st : LoopState) :
    runLoop (t :: ts) st =
      match loopStep t st with
      | .error e => .error e
      | .ok st₂ => runLoop ts st₂ := by
  by_cases hr : st.ready = true <;> cases t <;>
    simp only [runLoop, loopStep, hr, if_true, Bool.false_eq_true, if_false]
  case neg.num n =>
    cases hpg : process_group st.group st.vertices st.triangles with
    | error e => rfl
    | ok p => obtain ⟨vs, trs⟩ := p; rfl

/-- `process_group` never reports `MissingNumber`. -/
theorem process_group_ne_missing (group : List (List Char))
    (vs : List Vertex) (trs : List Triangle) :
    process_group group vs trs ≠ .error .missingNumber := by
  match group with
  | [] => simp [process_group]
  | [a] => simp [process_group]
  | [a, b] =>
    cases hpa : parse_f32 a <;> cases hpb : parse_f32 b <;>
      simp [process_group, hpa, hpb]
  | [a, b, c] =>
    cases hpa : parse_u32 a <;> cases hpb : parse_u32 b <;>
      cases hpc : parse_u32 c <;> simp [process_group, hpa, hpb, hpc]
  | a :: b :: c :: d :: rest =>
    simp only [process_group]
    split <;> simp

/-- A loop step reports `MissingNumber` exactly on a comma read in the
`ready` state. -/
theorem loopStep_missing_iff (t : Token) (st : LoopState) :
    loopStep t st = .error .missingNumber ↔
      (t = Token.comma ∧ st.ready = true) := by
  by_cases hr : st.ready = true <;> cases t <;>
    simp only [loopStep, hr, if_true, Bool.false_eq_true, if_false]
  · simp
  · simp [hr]
  · simp [hr]
  case neg.num n =>
    cases hpg : process_group st.group st.vertices st.triangles with
    | error e =>
      simp only [hr]
      constructor
      · intro h
        cases h
        exact absurd hpg (process_group_ne_missing _ _ _)
      · rintro ⟨h, -⟩; exact Token.noConfusion h
    | ok p => obtain ⟨vs, trs⟩ := p; simp [hr]

/-- After a successful loop step, `ready` holds exactly when the token
was a comma. -/
theorem loopStep_ok_ready {t : Token} {st st₂ : LoopState}
    (h : loopStep t st = .ok st₂) :
    (st₂.ready = true ↔ t = Token.comma) := by
  by_cases hr : st.ready = true <;> cases t <;>
    simp only [loopStep, hr, if_true, Bool.false_eq_true, if_false] at h
  · exact Except.noConfusion h
  case pos.num n => cases h; simp
  case neg.comma => cases h; simp [hr]
  case neg.num n =>
    cases hpg : process_group st.group st.vertices st.triangles with
    | error e => rw [hpg] at h; exact Except.noConfusion h
    | ok p => obtain ⟨vs, trs⟩ := p; rw [hpg] at h; cases h; simp

/-- After a successful run, `ready` records whether the consumed tokens
end with a comma (or there were none and the start state was ready). -/
theorem runLoop_ok_ready :
    ∀ (ts : List Token) (st st' : LoopState), runLoop ts st = .ok st' →
      (st'.ready = true ↔
        ((ts = [] ∧ st.ready = true) ∨ ts.getLast? = some Token.comma)) := by
  intro ts
  induction ts with
  | nil =>
    intro st st' h
    cases h
    simp
  | cons t rest ih =>
    intro st st' h
    rw [runLoop_cons] at h
    cases hs : loopStep t st with
    | error e => rw [hs] at h; exact Except.noConfusion h
    | ok st₂ =>
      rw [hs] at h
      have hstep := loopStep_ok_ready hs
      cases rest with
      | nil =>
        cases h
        cases t with
        | comma => simpa using hstep
        | num n => simpa using hstep
      | cons r rest' =>
        have := ih st₂ st' h
        rw [List.getLast?_cons_cons]
        simpa using this

/-- The loop reports `MissingNumber` exactly when a comma token follows
a successfully consumed prefix whose final state is `ready`. -/
theorem runLoop_missing_iff :
    ∀ (ts : List Token) (st : LoopState),
      runLoop ts st = .error .missingNumber ↔
        ∃ ts₁ ts₂ st₁, ts = ts₁ ++ Token.comma :: ts₂ ∧
          runLoop ts₁ st = .ok st₁ ∧ st₁.ready = true := by
  intro ts
  induction ts with
  | nil =>
    intro st
    constructor
    · intro h; exact Except.noConfusion h
    · rintro ⟨ts₁, ts₂, st₁, heq, -, -⟩
      exact absurd heq (by simp)
  | cons t rest ih =>
    intro st
    rw [runLoop_cons]
    cases hs : loopStep t st with
    | error e =>
      constructor
      · intro h
        cases h
        rcases (loopStep_missing_iff t st).mp hs with ⟨rfl, hready⟩
        exact ⟨[], rest, st, rfl, rfl, hready⟩
      · rintro ⟨ts₁, ts₂, st₁, heq, hrun, hready⟩
        cases ts₁ with
        | nil =>
          cases heq
          cases hrun
          rw [(loopStep_missing_iff Token.comma st).mpr ⟨rfl, hready⟩] at hs
          cases hs
          rfl
        | cons t1 ts₁' =>
          rw [List.cons_append] at heq
          cases heq
          rw [runLoop_cons, hs] at hrun
          exact Except.noConfusion hrun
    | ok st₂ =>
      rw [ih st₂]
      constructor
      · rintro ⟨ts₁, ts₂, st₁, heq, hrun, hready⟩
        refine ⟨t :: ts₁, ts₂, st₁, by rw [heq, List.cons_append], ?_, hready⟩
        rw [runLoop_cons, hs]
        exact hrun
      · rintro ⟨ts₁, ts₂, st₁, heq, hrun, hready⟩
        cases ts₁ with
        | nil =>
          cases heq
          cases hrun
          rw [(loopStep_missing_iff Token.comma st).mpr ⟨rfl, hready⟩] at hs
          exact Except.noConfusion hs
        | cons t1 ts₁' =>
          rw [List.cons_append] at heq
          cases heq
          rw [runLoop_cons, hs] at hrun
          exact ⟨ts₁', ts₂, st₁, rfl, hrun, hready⟩

/-- The trailing-group processing never reports `MissingNumber`. -/
theorem finishGroups_ne_missing (st : LoopState) :
    finishGroups st ≠ .error .missingNumber := by
  unfold finishGroups
  split
  · simp
  · exact process_group_ne_missing _ _ _

/-- `from_str` reports `MissingNumber` exactly when the token loop does. -/
theorem from_str_missing_iff_runLoop (s : String) :
    from_str s = .error .missingNumber ↔
      runLoop (tokenize s.data) initState = .error .missingNumber := by
  unfold from_str parsePhase
  cases hr : runLoop (tokenize s.data) initState with
  | error e => simp
  | ok st =>
    cases hf : finishGroups st with
    | error e =>
      have hne := finishGroups_ne_missing st
      rw [hf] at hne
      simp only [Ne, Except.error.injEq] at hne
      simp [hf, hne]
    | ok p =>
      obtain ⟨vs, trs⟩ := p
      cases hb : firstBadIndex trs vs.length <;> simp [hf, hb]

/-! ## Claims C6, C7, C8 — the `from_str` parser -/

/-- **C6**: `from_str` reports `GroupTooShort` for `"7"`,
`GroupTooLong(4)` for `"7,7,8,9"`, `IndexOutOfBounds(2)` for
`"0,0 1,1 0,1,2"`, and `MissingNumber` exactly when a comma token
appears where a number is expected — it is the first token or directly
follows another comma (the start of a group) — at a point the earlier
tokens were consumed without error. -/
theorem C6_parser_errors :
    from_str "7" = .error .groupTooShort ∧
    from_str "7,7,8,9" = .error (.groupTooLong 4) ∧
    from_str "0,0 1,1 0,1,2" = .error (.indexOutOfBounds 2) ∧
    ∀ s : String,
      (from_str s = .error .missingNumber ↔
        ∃ ts₁ ts₂, tokenize s.data = ts₁ ++ Token.comma :: ts₂ ∧
          (ts₁ = [] ∨ ts₁.getLast? = some Token.comma) ∧
          ∃ st, runLoop ts₁ initState = .ok st) := by
  refine ⟨by decide, by decide, by decide, fun s => ?_⟩
  rw [from_str_missing_iff_runLoop, runLoop_missing_iff]
  constructor
  · rintro ⟨ts₁, ts₂, st₁, heq, hrun, hready⟩
    refine ⟨ts₁, ts₂, heq, ?_, st₁, hrun⟩
    rcases (runLoop_ok_ready ts₁ initState st₁ hrun).mp hready with ⟨hnil, -⟩ | hlast
    · exact Or.inl hnil
    · exact Or.inr hlast
  · rintro ⟨ts₁, ts₂, heq, hcond, st₁, hrun⟩
    refine ⟨ts₁, ts₂, st₁, heq, hrun, ?_⟩
    apply (runLoop_ok_ready ts₁ initState st₁ hrun).mpr
    rcases hcond with rfl | hlast
    · exact Or.inl ⟨rfl, rfl⟩
    · exact Or.inr hlast

/-- Witness for C6's `MissingNumber` characterization at `",5"`: the
leading comma is the first token, so the parse fails with
`MissingNumber`. -/
theorem C6_witness : from_str ",5" = .error .missingNumber :=
  (C6_parser_errors.2.2.2 ",5").mpr
    ⟨[], [Token.num ['5']], by decide, Or.inl rfl, initState, rfl⟩

/-- **C7**: parsing `"0,0 1,1 1,0 0,1,2"` yields vertices
`[(0,0), (1,1), (1,0)]` and the single triangle `[0,1,2]`, and the
`Display` rendering of that collider is
`"(0, 0) (1, 1) (1, 0) [0, 1, 2]"`. -/
theorem C7_parse_and_display :
    from_str "0,0 1,1 1,0 0,1,2" =
      .ok ⟨[vertexOfUnits 0 0, vertexOfUnits 1 1, vertexOfUnits 1 0],
           [(0, 1, 2)]⟩ ∧
    CustomTileCollider.display
        ⟨[vertexOfUnits 0 0, vertexOfUnits 1 1, vertexOfUnits 1 0],
         [(0, 1, 2)]⟩ =
      "(0, 0) (1, 1) (1, 0) [0, 1, 2]" := by
  constructor <;> decide

/-- Index validation succeeds exactly when every triangle index is below
the vertex count. -/
theorem firstBadIndex_eq_none (len : Nat) :
    ∀ trs : List Triangle,
      (∀ t ∈ trs, t.1 < len ∧ t.2.1 < len ∧ t.2.2 < len) →
      firstBadIndex trs len = none := by
  intro trs
  induction trs with
  | nil => intro h; rfl
  | cons t rest ih =>
    intro h
    obtain ⟨a, b, c⟩ := t
    obtain ⟨⟨ha, hb, hc⟩, hrest⟩ := List.forall_mem_cons.mp h
    simp only [firstBadIndex, if_neg (Nat.not_le.mpr ha),
      if_neg (Nat.not_le.mpr hb), if_neg (Nat.not_le.mpr hc)]
    exact ih hrest

/-- **C8**: triangle indices are validated only after the whole token
stream is consumed, against the final vertex count: whenever the token
and group phase succeeds — regardless of the order of vertex and
triangle groups, so forward references included — and every triangle
index is below the total vertex count of the whole string, `from_str`
succeeds with exactly those vertices and triangles. -/
theorem C8_forward_references_legal (s : String) (vs : List Vertex)
    (trs : List Triangle)
    (hphase : parsePhase (tokenize s.data) = .ok (vs, trs))
    (hidx : ∀ t ∈ trs, t.1 < vs.length ∧ t.2.1 < vs.length ∧ t.2.2 < vs.length) :
    from_str s = .ok ⟨vs, trs⟩ := by
  unfold from_str
  rw [hphase]
  simp [firstBadIndex_eq_none vs.length trs hidx]

/-- Witness for C8: in `"0,1,2 0,0 1,1 1,0"` the triangle group precedes
every vertex it references, and the parse succeeds. -/
theorem C8_witness :
    from_str "0,1,2 0,0 1,1 1,0" =
      .ok ⟨[vertexOfUnits 0 0, vertexOfUnits 1 1, vertexOfUnits 1 0],
           [(0, 1, 2)]⟩ :=
  C8_forward_references_legal "0,1,2 0,0 1,1 1,0"
    [vertexOfUnits 0 0, vertexOfUnits 1 1, vertexOfUnits 1 0] [(0, 1, 2)]
    (by decide) (by decide)

/-! ## Claim C10 — `build_collider_shape` appends and offsets -/

/-- **C10**: `build_collider_shape` (for the `Rectangle` variant and for
`CustomTileCollider`) only appends to the output vectors — every
pre-existing element is unchanged — and every appended triangle index is
offset by the prior vertex count, so that when a custom collider's own
triangle indices are all below its own vertex count, every appended
index is in bounds for the extended vertex vector; the rectangle's six
appended indices are always in bounds. -/
theorem C10_build_collider_appends (tf : Pt3 → Pt3) (pos : Pt3)
    (c : CustomTileCollider) (vs : List Pt2) (ts : List Triangle) :
    (∃ nv nt,
      (TileCollider.custom c).build_collider_shape tf pos vs ts =
        (vs ++ nv, ts ++ nt) ∧
      nt = c.triangles.map (fun t =>
        (t.1 + vs.length, t.2.1 + vs.length, t.2.2 + vs.length)) ∧
      ((∀ t ∈ c.triangles, t.1 < c.vertices.length ∧
          t.2.1 < c.vertices.length ∧ t.2.2 < c.vertices.length) →
        ∀ t ∈ nt, t.1 < (vs ++ nv).length ∧ t.2.1 < (vs ++ nv).length ∧
          t.2.2 < (vs ++ nv).length)) ∧
    (∃ nv nt,
      TileCollider.rectangle.build_collider_shape tf pos vs ts =
        (vs ++ nv, ts ++ nt) ∧
      nt = [(vs.length, vs.length + 1, vs.length + 2),
            (vs.length, vs.length + 2, vs.length + 3)] ∧
      ∀ t ∈ nt, t.1 < (vs ++ nv).length ∧ t.2.1 < (vs ++ nv).length ∧
        t.2.2 < (vs ++ nv).length) := by
  constructor
  · refine ⟨_, _, rfl, rfl, ?_⟩
    intro hidx t ht
    rcases List.mem_map.mp ht with ⟨t0, ht0, rfl⟩
    obtain ⟨h1, h2, h3⟩ := hidx t0 ht0
    simp only [List.length_append, List.length_map]
    omega
  · refine ⟨[transformPoint tf pos (0, 0), transformPoint tf pos (1, 0),
      transformPoint tf pos (1, 1), transformPoint tf pos (0, 1)],
      [(vs.length, vs.length + 1, vs.length + 2),
       (vs.length, vs.length + 2, vs.length + 3)], ?_, rfl, ?_⟩
    · simp [TileCollider.build_collider_shape]
    · intro t ht
      simp only [List.length_append, List.length_cons, List.length_nil]
      rcases List.mem_cons.mp ht with rfl | ht'
      · simp only []
        omega
      · rcases List.mem_cons.mp ht' with rfl | ht''
        · simp only []
          omega
        · exact absurd ht'' (List.not_mem_nil _)

end RG3D
